import Mathlib

/-!
Verification of the Image Classifier API (Express + TensorFlow.js CIFAR-10 server).

Shallow embedding of the repository code:
  - `ModelService` (argmax, stable descending sort, rounding, predict) from
    `src/services/ModelService.ts`;
  - `ImageProcessor.preprocessImage` numeric pipeline and its tensor-allocation
    behaviour, and `ImageProcessor.validateImage`, from
    `src/services/ImageProcessor.ts`;
  - `ClassificationController.classifyImage` control flow from
    `src/controllers/ClassificationController.ts`.
Numbers handled by the formatter are modelled as exact rationals; JavaScript
string/number truthiness is modelled explicitly where the source relies on it.
-/

/-- The fixed CIFAR-10 class list from `ModelService.classes`. -/
def cifarClasses : List String :=
  ["plane", "car", "bird", "cat", "deer", "dog", "frog", "horse", "ship", "truck"]

/-- JS `(x).toFixed(2)` read back as a number: rounding to 2 decimal places,
nearest, ties toward the larger value (the ECMAScript `toFixed` rule). -/
def round2 (q : ℚ) : ℚ := (Int.floor (q * 100 + 1/2) : ℚ) / 100

/-- JS `Number(x.toFixed(4))`: rounding to 4 decimal places, nearest, ties toward
the larger value. -/
def round4 (q : ℚ) : ℚ := (Int.floor (q * 10000 + 1/2) : ℚ) / 10000

/-- One entry of `allPredictions` (interface `ClassProbability` in
`ModelService.ts`; the `class` field is named `className` here because `class`
is a Lean keyword). The `percentage` string of the source is modelled by its
numeric value. -/
structure ClassProbability where
  className : String
  probability : ℚ
  percentage : ℚ

deriving instance DecidableEq, Repr for ClassProbability

/-- JS `Math.max(...probabilities)` for a nonempty list (the empty case, which
in JS yields -Infinity, is never reached: the model always yields 10 scores). -/
def jsMax : List ℚ → ℚ
  | [] => 0
  | x :: xs => xs.foldl max x

/-- `this.classes.map((className, index) => ({class, probability, percentage}))`
from `ModelService.predict`: pairs each class name positionally with its
probability. -/
def baseResults (probs : List ℚ) : List ClassProbability :=
  cifarClasses.enum.map fun ic =>
    { className := ic.2
      probability := probs.getD ic.1 0
      percentage := round2 (probs.getD ic.1 0 * 100) }

/-- Stable insertion of `x` in front of the first strictly smaller entry.
`classResults.sort((a, b) => b.probability - a.probability)` is, by the
ECMAScript specification, a stable sort consistent with the comparator; the
(unique) stable descending reordering is computed here by insertion sort. -/
def insertDesc (x : ClassProbability) : List ClassProbability → List ClassProbability
  | [] => [x]
  | y :: ys => if y.probability ≤ x.probability then x :: y :: ys else y :: insertDesc x ys

/-- Stable descending sort by probability (see `insertDesc`). -/
def sortDesc : List ClassProbability → List ClassProbability
  | [] => []
  | x :: xs => insertDesc x (sortDesc xs)

/-- The first entry of a list attaining the maximal probability (ties go to the
earlier entry). Used to characterise the head of `sortDesc`. -/
def firstMaxElem : List ClassProbability → ClassProbability
  | [] => ⟨"", 0, 0⟩
  | [x] => x
  | x :: y :: t =>
    if (firstMaxElem (y :: t)).probability ≤ x.probability then x else firstMaxElem (y :: t)

/-- Interface `PredictionResult` from `ModelService.ts`; the
`confidencePercentage` string is modelled by its numeric value. -/
structure PredictionResult where
  predictedClass : String
  confidence : ℚ
  confidencePercentage : ℚ
  allPredictions : List ClassProbability

deriving instance DecidableEq, Repr for PredictionResult

/-- The pure result-shaping part of `ModelService.predict`, applied to the
probability vector read out of the model output tensor:
`indexOf(Math.max(...))` (first occurrence of the maximum), per-class results,
stable descending sort, and rounding of the confidence. -/
def formatPrediction (probs : List ℚ) : PredictionResult :=
  let maxProbability := jsMax probs
  let maxProbabilityIndex := probs.findIdx fun x => decide (x = maxProbability)
  let confidence := probs.getD maxProbabilityIndex 0
  { predictedClass := cifarClasses.getD maxProbabilityIndex ""
    confidence := round4 confidence
    confidencePercentage := round2 (confidence * 100)
    allPredictions := sortDesc (baseResults probs) }

/-- `ModelService.predict`: `this.model` is `none` when the model has not been
loaded, in which case the method throws `Model not loaded. Call loadModel()
first.` before touching the inference runtime; when loaded, the argument of
`some` is the outcome of running the model (an error wraps as
`Prediction failed: ...`, a probability vector is formatted). -/
def svcPredict (model : Option (Except String (List ℚ))) : Except String PredictionResult :=
  match model with
  | none => Except.error "Model not loaded. Call loadModel() first."
  | some (Except.error e) => Except.error ("Prediction failed: " ++ e)
  | some (Except.ok probs) => Except.ok (formatPrediction probs)

/-- `ModelService.getClasses` returns `[...this.classes]`: a freshly allocated
copy appended to the JS heap (heap = list of array objects, references =
indices). -/
def getClasses (heap : List (List String)) (svcRef : Nat) : List (List String) × Nat :=
  (heap ++ [heap.getD svcRef []], heap.length)

/-- Mutation of element `i` of the array object at reference `r` (what a caller
could do to the value returned by `getClasses`). -/
def writeElem (heap : List (List String)) (r i : Nat) (v : String) : List (List String) :=
  heap.set r ((heap.getD r []).set i v)

/-! ### ImageProcessor: numeric model of `preprocessImage` -/

/-- A tensor: shape and row-major data, values as exact rationals. -/
structure Tensor where
  shape : List Nat
  data : List ℚ

deriving instance DecidableEq, Repr for Tensor

/-- `tf.node.decodeImage(processedBuffer, 3)` applied to the sharp output:
sharp has already resized to 32×32 (`fit: fill`) and re-encoded as 3-channel
RGB PNG, so decoding yields a `[32, 32, 3]` tensor whose entries are the byte
values, each in `[0, 255]`. -/
def decodeImage (pixels : List ℚ) : Tensor := ⟨[32, 32, 3], pixels⟩

/-- `tf.image.resizeBilinear(imageTensor, [32, 32])` as invoked by the source:
the input is already a `[32, 32, 3]` tensor, and a bilinear resize to the
spatial size of the input samples exactly the source grid points, so the data
is unchanged. -/
def resizeBilinearSame (t : Tensor) : Tensor := t

/-- `tf.sub(t, c)`: elementwise subtraction of a scalar. -/
def tfSub (t : Tensor) (c : ℚ) : Tensor := ⟨t.shape, t.data.map fun v => v - c⟩

/-- `tf.div(t, c)`: elementwise division by a scalar. -/
def tfDiv (t : Tensor) (c : ℚ) : Tensor := ⟨t.shape, t.data.map fun v => v / c⟩

/-- `tf.expandDims(t, 0)`: prepend a batch dimension of size 1. -/
def expandDims0 (t : Tensor) : Tensor := ⟨1 :: t.shape, t.data⟩

/-- The numeric pipeline of `ImageProcessor.preprocessImage`, as a function of
the decoded 32×32×3 pixel values produced by the sharp resize step. -/
def preprocessImage (pixels : List ℚ) : Tensor :=
  let imageTensor := decodeImage pixels
  let resizedTensor := resizeBilinearSame imageTensor
  let normalizedTensor := tfDiv (tfSub resizedTensor 127.5) 127.5
  expandDims0 normalizedTensor

/-! ### ImageProcessor: tensor-allocation model of `preprocessImage` -/

/-- Allocation state: next fresh tensor id and the ids currently live
(allocated and not disposed). -/
structure TensorHeap where
  next : Nat
  live : List Nat

deriving instance DecidableEq, Repr for TensorHeap

/-- Allocate a fresh tensor id. -/
def allocT (h : TensorHeap) : Nat × TensorHeap :=
  (h.next, ⟨h.next + 1, h.live ++ [h.next]⟩)

/-- `tensor.dispose()`: remove an id from the live set. -/
def disposeT (h : TensorHeap) (i : Nat) : TensorHeap :=
  ⟨h.next, h.live.filter fun j => decide (j ≠ i)⟩

/-- The steps of `preprocessImage` at which the underlying library can throw. -/
inductive PreStep
  | sharpResize
  | decodeImg
  | resizeBil
  | subOp
  | divOp
  | expandOp

deriving instance DecidableEq, Repr for PreStep

/-- Allocation/disposal behaviour of `ImageProcessor.preprocessImage`, line by
line: each tf op allocates a tensor (`tf.div(tf.sub(resizedTensor, 127.5),
127.5)` allocates one tensor for the subtraction result and one for the
division result); on success the source disposes exactly `imageTensor`,
`resizedTensor` and `normalizedTensor` and returns `batchedTensor`; when a step
throws, the catch block rethrows `Image preprocessing failed: ...` without
disposing anything. `failAt` selects the step (if any) at which the library
throws. -/
def preprocessAlloc (failAt : Option PreStep) (h : TensorHeap) : Except String Nat × TensorHeap :=
  if failAt = some PreStep.sharpResize then (Except.error "Image preprocessing failed", h)
  else if failAt = some PreStep.decodeImg then (Except.error "Image preprocessing failed", h)
  else
    let (imageTensor, h1) := allocT h
    if failAt = some PreStep.resizeBil then (Except.error "Image preprocessing failed", h1)
    else
      let (resizedTensor, h2) := allocT h1
      if failAt = some PreStep.subOp then (Except.error "Image preprocessing failed", h2)
      else
        let (subResult, h3) := allocT h2
        if failAt = some PreStep.divOp then (Except.error "Image preprocessing failed", h3)
        else
          let (normalizedTensor, h4) := allocT h3
          if failAt = some PreStep.expandOp then (Except.error "Image preprocessing failed", h4)
          else
            let (batchedTensor, h5) := allocT h4
            let h6 := disposeT (disposeT (disposeT h5 imageTensor) resizedTensor) normalizedTensor
            have := subResult
            (Except.ok batchedTensor, h6)

/-! ### ImageProcessor: `validateImage` -/

/-- What `sharp(buffer).metadata()` reports: optional width, height, format and
channel count (absent fields are `undefined` in JS). -/
structure SharpMetadata where
  width : Option Nat
  height : Option Nat
  format : Option String
  channels : Option Nat

deriving instance DecidableEq, Repr for SharpMetadata

/-- Interface `ImageMetadata` from `ImageProcessor.ts`. -/
structure ImageMetadata where
  width : Nat
  height : Nat
  format : String
  size : Nat
  channels : Nat

deriving instance DecidableEq, Repr for ImageMetadata

/-- JS truthiness of an optional number: `!x` is true when `x` is `undefined`
or `0`. -/
def natFalsy : Option Nat → Bool
  | none => true
  | some 0 => true
  | some (_ + 1) => false

/-- JS truthiness of an optional string: `!s` is true when `s` is `undefined`
or the empty string. -/
def strFalsy : Option String → Bool
  | none => true
  | some s => s.isEmpty

/-- The `supportedFormats` list of `ImageProcessor.validateImage`. -/
def supportedFormats : List String := ["jpeg", "jpg", "png", "webp", "gif", "bmp"]

/-- JS template-literal rendering of `metadata.format` (an absent field prints
as `undefined`). -/
def formatDisplay : Option String → String
  | none => "undefined"
  | some f => f

/-- JS `metadata.channels || 3`. -/
def jsOrNat (o : Option Nat) (d : Nat) : Nat :=
  match o with
  | none => d
  | some 0 => d
  | some (n + 1) => n + 1

/-- `ImageProcessor.validateImage` as a function of the buffer length and of
what sharp reports for the buffer. Both internal throws are wrapped by the
catch block into `Image validation failed: ${error}` (an `Error` prints as
`Error: <message>`). -/
def validateImage (bufLen : Nat) (m : SharpMetadata) : Except String ImageMetadata :=
  if natFalsy m.width || natFalsy m.height then
    Except.error "Image validation failed: Error: Unable to determine image dimensions"
  else if strFalsy m.format || !(decide (formatDisplay m.format ∈ supportedFormats)) then
    Except.error ("Image validation failed: Error: Unsupported image format: " ++
      formatDisplay m.format ++ ". Supported: jpeg, jpg, png, webp, gif, bmp")
  else
    Except.ok
      { width := m.width.getD 0
        height := m.height.getD 0
        format := (m.format).getD ""
        size := bufLen
        channels := jsOrNat m.channels 3 }

/-! ### ClassificationController: `classifyImage` -/

/-- JS `String.prototype.includes`, on character lists: does `pat` occur as a
contiguous run at the front? -/
def leadsWith : List Char → List Char → Bool
  | [], _ => true
  | _ :: _, [] => false
  | p :: ps, c :: cs => p == c && leadsWith ps cs

/-- Does `pat` occur as a contiguous run anywhere in the list? -/
def hasSubList (pat : List Char) : List Char → Bool
  | [] => pat.isEmpty
  | c :: rest => leadsWith pat (c :: rest) || hasSubList pat rest

/-- JS `msg.includes(pat)`. -/
def strIncludes (s pat : String) : Bool := hasSubList pat.data s.data

/-- The catch block of `ClassificationController.classifyImage`: message
sniffing maps a thrown error to an HTTP status. -/
def errorStatus (msg : String) : Nat :=
  if strIncludes msg "Image validation failed" || strIncludes msg "Image preprocessing failed" then 400
  else if strIncludes msg "Model not loaded" then 503
  else 500

/-- One classify request: is a file present, the model state shared with
`svcPredict` (`none` = not loaded, otherwise the inference outcome), and the
outcomes `validateImage` and `preprocessImage` would produce on the uploaded
buffer. -/
structure ClassifyInput where
  hasFile : Bool
  model : Option (Except String (List ℚ))
  validateResult : Except String ImageMetadata
  preprocessResult : Except String Unit

/-- Observable outcome of one run of the handler: HTTP status, which pipeline
steps ran, whether the preprocessed tensor was produced and whether its
`dispose()` was invoked before the request completed, and the `allPredictions`
field of a success body. -/
structure HandlerTrace where
  status : Nat
  validateInvoked : Bool
  preprocessInvoked : Bool
  predictInvoked : Bool
  tensorAllocated : Bool
  tensorDisposed : Bool
  responseTop : Option (List ClassProbability)

deriving instance DecidableEq, Repr for HandlerTrace

/-- `ClassificationController.classifyImage`, step by step: missing file →
400; model not loaded → 503; `validateImage` throw → catch (status by message);
`preprocessImage` throw → catch; `predict` throw → catch — the catch block
sends the error response and returns without calling
`preprocessedImage.dispose()` (the only `dispose()` call sits on the success
path, before `res.json`); success → dispose, then 200 with
`allPredictions.slice(0, 5)`. -/
def classifyImage (inp : ClassifyInput) : HandlerTrace :=
  if !inp.hasFile then
    ⟨400, false, false, false, false, false, none⟩
  else if !inp.model.isSome then
    ⟨503, false, false, false, false, false, none⟩
  else
    match inp.validateResult with
    | Except.error e => ⟨errorStatus e, true, false, false, false, false, none⟩
    | Except.ok _ =>
      match inp.preprocessResult with
      | Except.error e => ⟨errorStatus e, true, true, false, false, false, none⟩
      | Except.ok _ =>
        match svcPredict inp.model with
        | Except.error e => ⟨errorStatus e, true, true, true, true, false, none⟩
        | Except.ok pred =>
          ⟨200, true, true, true, true, true, some (pred.allPredictions.take 5)⟩

/-! ### Helper lemmas: `jsMax` and first-occurrence `findIdx` -/

theorem le_foldl_max_of_le : ∀ (t : List ℚ) (a b : ℚ), b ≤ a → b ≤ t.foldl max a
  | [], _, _, h => h
  | y :: t, a, b, h => le_foldl_max_of_le t (max a y) b (le_trans h (le_max_left a y))

theorem mem_le_foldl_max : ∀ (t : List ℚ) (a x : ℚ), x ∈ t → x ≤ t.foldl max a
  | y :: t, a, x, h => by
    rcases List.mem_cons.mp h with rfl | h2
    · exact le_foldl_max_of_le t (max a x) x (le_max_right a x)
    · exact mem_le_foldl_max t (max a y) x h2

theorem le_jsMax (l : List ℚ) (x : ℚ) (hx : x ∈ l) : x ≤ jsMax l := by
  cases l with
  | nil => cases hx
  | cons y t =>
    simp only [jsMax]
    rcases List.mem_cons.mp hx with rfl | h2
    · exact le_foldl_max_of_le t x x le_rfl
    · exact mem_le_foldl_max t y x h2

theorem foldl_max_mem : ∀ (t : List ℚ) (a : ℚ), t.foldl max a ∈ a :: t
  | [], a => List.mem_singleton.mpr rfl
  | y :: t, a => by
    have h := foldl_max_mem t (max a y)
    have he : List.foldl max a (y :: t) = List.foldl max (max a y) t := rfl
    rw [he]
    rcases List.mem_cons.mp h with heq | hmem
    · rcases max_choice a y with h1 | h1
      · rw [heq, h1]; exact List.mem_cons_self _ _
      · rw [heq, h1]; exact List.mem_cons_of_mem _ (List.mem_cons_self _ _)
    · exact List.mem_cons_of_mem _ (List.mem_cons_of_mem _ hmem)

theorem jsMax_mem (l : List ℚ) (h : l ≠ []) : jsMax l ∈ l := by
  cases l with
  | nil => exact absurd rfl h
  | cons y t => simpa [jsMax] using foldl_max_mem t y

theorem foldl_max_init : ∀ (t : List ℚ) (a b : ℚ), t.foldl max (max a b) = max a (t.foldl max b)
  | [], _, _ => rfl
  | c :: t, a, b => by
    show List.foldl max (max (max a b) c) t = max a (List.foldl max (max b c) t)
    rw [max_assoc]
    exact foldl_max_init t a (max b c)

theorem jsMax_cons (a : ℚ) (l : List ℚ) (h : l ≠ []) : jsMax (a :: l) = max a (jsMax l) := by
  cases l with
  | nil => exact absurd rfl h
  | cons b t =>
    show List.foldl max (max a b) t = max a (List.foldl max b t)
    exact foldl_max_init t a b

theorem findIdx_eq_of_first : ∀ (l : List ℚ) (p : ℚ → Bool) (i : Nat), i < l.length →
    p (l.getD i 0) = true → (∀ j, j < i → p (l.getD j 0) = false) → l.findIdx p = i
  | [], _, i, hi, _, _ => absurd hi (by simp)
  | x :: t, p, 0, _, hp, _ => by
    simp only [List.getD_cons_zero] at hp
    simp [List.findIdx_cons, hp]
  | x :: t, p, i + 1, hi, hp, hprev => by
    have hx : p x = false := by
      have h0 := hprev 0 (Nat.succ_pos i)
      simpa using h0
    have ht : t.findIdx p = i := by
      refine findIdx_eq_of_first t p i ?_ ?_ ?_
      · simp only [List.length_cons] at hi; omega
      · simpa using hp
      · intro j hj
        have hj1 := hprev (j + 1) (Nat.succ_lt_succ hj)
        simpa using hj1
    simp [List.findIdx_cons, hx, ht]

/-! ### Helper lemmas: the stable descending sort -/

theorem insertDesc_length (x : ClassProbability) : ∀ l, (insertDesc x l).length = l.length + 1
  | [] => rfl
  | y :: ys => by
    simp only [insertDesc]
    split
    · rfl
    · simp [insertDesc_length x ys]

theorem sortDesc_length : ∀ l, (sortDesc l).length = l.length
  | [] => rfl
  | x :: xs => by simp [sortDesc, insertDesc_length, sortDesc_length xs]

theorem insertDesc_perm (x : ClassProbability) : ∀ l, (insertDesc x l).Perm (x :: l)
  | [] => List.Perm.refl _
  | y :: ys => by
    simp only [insertDesc]
    split
    · exact List.Perm.refl _
    · exact ((insertDesc_perm x ys).cons y).trans (List.Perm.swap x y ys)

theorem sortDesc_perm : ∀ l, (sortDesc l).Perm l
  | [] => List.Perm.refl _
  | x :: xs => by
    simp only [sortDesc]
    exact (insertDesc_perm x (sortDesc xs)).trans ((sortDesc_perm xs).cons x)

theorem pairwise_insertDesc (x : ClassProbability) : ∀ l,
    List.Pairwise (fun a b => b.probability ≤ a.probability) l →
    List.Pairwise (fun a b => b.probability ≤ a.probability) (insertDesc x l)
  | [], _ => List.pairwise_singleton _ _
  | y :: ys, hl => by
    rw [List.pairwise_cons] at hl
    obtain ⟨hy, hys⟩ := hl
    simp only [insertDesc]
    split
    · rename_i hle
      rw [List.pairwise_cons]
      refine ⟨?_, List.pairwise_cons.mpr ⟨hy, hys⟩⟩
      intro a ha
      rcases List.mem_cons.mp ha with rfl | ha2
      · exact hle
      · exact le_trans (hy a ha2) hle
    · rename_i hgt
      rw [List.pairwise_cons]
      refine ⟨?_, pairwise_insertDesc x ys hys⟩
      intro a ha
      rcases List.mem_cons.mp ((insertDesc_perm x ys).mem_iff.mp ha) with rfl | ha2
      · exact le_of_lt (lt_of_not_le hgt)
      · exact hy a ha2

theorem sortDesc_pairwise : ∀ l, List.Pairwise (fun a b => b.probability ≤ a.probability) (sortDesc l)
  | [] => List.Pairwise.nil
  | x :: xs => by
    simp only [sortDesc]
    exact pairwise_insertDesc x (sortDesc xs) (sortDesc_pairwise xs)

theorem filter_insertDesc (x : ClassProbability) (p : ℚ) : ∀ l,
    (insertDesc x l).filter (fun s => decide (s.probability = p)) =
      if x.probability = p
      then x :: l.filter (fun s => decide (s.probability = p))
      else l.filter (fun s => decide (s.probability = p))
  | [] => by
    by_cases hx : x.probability = p <;> simp [insertDesc, hx]
  | y :: ys => by
    simp only [insertDesc]
    split
    · by_cases hx : x.probability = p <;> simp [List.filter_cons, hx]
    · rename_i hgt
      rw [List.filter_cons, filter_insertDesc x p ys]
      by_cases hx : x.probability = p
      · have hy : ¬ y.probability = p := by
          intro h
          exact hgt (le_of_eq (h.trans hx.symm))
        simp [hx, hy, List.filter_cons]
      · by_cases hy : y.probability = p <;> simp [hx, hy, List.filter_cons]

theorem filter_sortDesc (p : ℚ) : ∀ l,
    (sortDesc l).filter (fun s => decide (s.probability = p)) =
      l.filter (fun s => decide (s.probability = p))
  | [] => rfl
  | x :: xs => by
    simp only [sortDesc]
    rw [filter_insertDesc x p (sortDesc xs), filter_sortDesc p xs]
    by_cases hx : x.probability = p <;> simp [hx, List.filter_cons]

theorem head_insertDesc (x h : ClassProbability) (t : List ClassProbability) :
    (insertDesc x (h :: t)).head? = some (if h.probability ≤ x.probability then x else h) := by
  simp only [insertDesc]
  split
  · rename_i hc; simp [hc]
  · rename_i hc; simp [hc]

theorem head_sortDesc : ∀ l : List ClassProbability, l ≠ [] →
    (sortDesc l).head? = some (firstMaxElem l)
  | [], h => absurd rfl h
  | [x], _ => rfl
  | x :: y :: t, _ => by
    have hne : sortDesc (y :: t) ≠ [] := by
      intro hcon
      have hlen := sortDesc_length (y :: t)
      rw [hcon] at hlen
      simp at hlen
    obtain ⟨h1, t1, heq⟩ : ∃ h1 t1, sortDesc (y :: t) = h1 :: t1 := by
      cases hcase : sortDesc (y :: t) with
      | nil => exact absurd hcase hne
      | cons a b => exact ⟨a, b, rfl⟩
    have hh : h1 = firstMaxElem (y :: t) := by
      have hhd := head_sortDesc (y :: t) (by simp)
      rw [heq] at hhd
      simpa using hhd
    show (insertDesc x (sortDesc (y :: t))).head? = some (firstMaxElem (x :: y :: t))
    rw [heq, head_insertDesc, hh]
    simp only [firstMaxElem]

theorem firstMaxElem_spec : ∀ l : List ClassProbability, l ≠ [] →
    ∃ i, i < l.length ∧ firstMaxElem l = l.getD i ⟨"", 0, 0⟩ ∧
      (firstMaxElem l).probability = jsMax (l.map fun s => s.probability) ∧
      (l.map fun s => s.probability).findIdx
        (fun v => decide (v = jsMax (l.map fun s => s.probability))) = i
  | [], h => absurd rfl h
  | [x], _ => by
    refine ⟨0, by simp, rfl, ?_, ?_⟩
    · simp [firstMaxElem, jsMax]
    · simp [List.findIdx_cons, jsMax]
  | x :: y :: t, _ => by
    obtain ⟨i, hi, hgd, hprob, hfind⟩ := firstMaxElem_spec (y :: t) (by simp)
    have hmapne : ((y :: t).map fun s => s.probability) ≠ [] := by simp
    have hcons : jsMax ((x :: y :: t).map fun s => s.probability) =
        max x.probability (jsMax ((y :: t).map fun s => s.probability)) := by
      show jsMax (x.probability :: (y :: t).map fun s => s.probability) = _
      exact jsMax_cons _ _ hmapne
    by_cases hle : (firstMaxElem (y :: t)).probability ≤ x.probability
    · have hfm : firstMaxElem (x :: y :: t) = x := by
        simp only [firstMaxElem]
        rw [if_pos hle]
      have hMle : jsMax ((y :: t).map fun s => s.probability) ≤ x.probability := by
        rw [← hprob]; exact hle
      refine ⟨0, by simp, ?_, ?_, ?_⟩
      · rw [hfm, List.getD_cons_zero]
      · rw [hfm, hcons]
        exact (max_eq_left hMle).symm
      · rw [hcons, max_eq_left hMle]
        show (x.probability :: ((y :: t).map fun s => s.probability)).findIdx
            (fun v => decide (v = x.probability)) = 0
        simp [List.findIdx_cons]
    · have hlt : x.probability < jsMax ((y :: t).map fun s => s.probability) := by
        rw [← hprob]; exact lt_of_not_le hle
      have hfm : firstMaxElem (x :: y :: t) = firstMaxElem (y :: t) := by
        simp only [firstMaxElem]
        rw [if_neg hle]
      refine ⟨i + 1, ?_, ?_, ?_, ?_⟩
      · simp only [List.length_cons] at hi ⊢; omega
      · rw [hfm, List.getD_cons_succ]; exact hgd
      · rw [hfm, hcons, hprob, max_eq_right (le_of_lt hlt)]
      · rw [hcons, max_eq_right (le_of_lt hlt)]
        show (x.probability :: ((y :: t).map fun s => s.probability)).findIdx
            (fun v => decide (v = jsMax ((y :: t).map fun s => s.probability))) = i + 1
        rw [List.findIdx_cons]
        have hxne : decide (x.probability = jsMax ((y :: t).map fun s => s.probability)) = false := by
          simpa using ne_of_lt hlt
        rw [hxne, Bool.cond_false, hfind]

/-! ### Helper lemmas: `baseResults` and `formatPrediction` projections -/

theorem baseResults_length (probs : List ℚ) : (baseResults probs).length = 10 := rfl

theorem baseResults_getD (probs : List ℚ) (i : Nat) (hi : i < 10) :
    (baseResults probs).getD i ⟨"", 0, 0⟩ =
      ⟨cifarClasses.getD i "", probs.getD i 0, round2 (probs.getD i 0 * 100)⟩ := by
  interval_cases i <;> rfl

theorem baseResults_map_prob (probs : List ℚ) (h10 : probs.length = 10) :
    (baseResults probs).map (fun s => s.probability) = probs := by
  apply List.ext_getElem
  · rw [List.length_map, baseResults_length, h10]
  · intro n h1 h2
    rw [List.getElem_map]
    have hn : n < 10 := by rw [List.length_map, baseResults_length] at h1; exact h1
    have hb := baseResults_getD probs n hn
    rw [List.getD_eq_getElem _ _ (by rw [baseResults_length]; exact hn)] at hb
    rw [hb]
    exact List.getD_eq_getElem probs 0 h2

theorem formatPrediction_predictedClass (probs : List ℚ) :
    (formatPrediction probs).predictedClass =
      cifarClasses.getD (probs.findIdx fun x => decide (x = jsMax probs)) "" := rfl

theorem formatPrediction_confidence (probs : List ℚ) :
    (formatPrediction probs).confidence =
      round4 (probs.getD (probs.findIdx fun x => decide (x = jsMax probs)) 0) := rfl

theorem formatPrediction_allPredictions (probs : List ℚ) :
    (formatPrediction probs).allPredictions = sortDesc (baseResults probs) := rfl

/-! ### Helper lemmas: lists indexed through `getD`, strings -/

theorem list_getD_concat {α : Type} : ∀ (l : List α) (c d : α), (l ++ [c]).getD l.length d = c
  | [], _, _ => rfl
  | a :: l, c, d => by
    show (a :: (l ++ [c])).getD (l.length + 1) d = c
    rw [List.getD_cons_succ]
    exact list_getD_concat l c d

theorem list_getD_append_left {α : Type} : ∀ (l l2 : List α) (r : Nat) (d : α),
    r < l.length → (l ++ l2).getD r d = l.getD r d
  | [], _, _, _, h => absurd h (by simp)
  | _ :: _, _, 0, _, _ => rfl
  | a :: l, l2, r + 1, d, h => by
    show (a :: (l ++ l2)).getD (r + 1) d = (a :: l).getD (r + 1) d
    rw [List.getD_cons_succ, List.getD_cons_succ]
    refine list_getD_append_left l l2 r d ?_
    simp only [List.length_cons] at h
    omega

theorem list_getD_set_ne {α : Type} : ∀ (l : List α) (r r2 : Nat) (v d : α), r ≠ r2 →
    (l.set r v).getD r2 d = l.getD r2 d
  | [], _, _, _, _, _ => rfl
  | _ :: _, 0, 0, _, _, h => absurd rfl h
  | a :: l, 0, r2 + 1, v, d, _ => by
    show (v :: l).getD (r2 + 1) d = (a :: l).getD (r2 + 1) d
    rw [List.getD_cons_succ, List.getD_cons_succ]
  | a :: l, r + 1, 0, v, d, _ => by
    show (a :: l.set r v).getD 0 d = (a :: l).getD 0 d
    rw [List.getD_cons_zero, List.getD_cons_zero]
  | a :: l, r + 1, r2 + 1, v, d, h => by
    show (a :: l.set r v).getD (r2 + 1) d = (a :: l).getD (r2 + 1) d
    rw [List.getD_cons_succ, List.getD_cons_succ]
    exact list_getD_set_ne l r r2 v d (by omega)

theorem strFalsy_eq_false_of_mem (o : Option String) (h : formatDisplay o ∈ supportedFormats) :
    strFalsy o = false := by
  cases o with
  | none => simp [formatDisplay, supportedFormats] at h
  | some s =>
    simp only [strFalsy]
    by_contra hcon
    rw [Bool.not_eq_false] at hcon
    have hs : s = "" := (String.isEmpty_iff s).mp hcon
    subst hs
    simp [formatDisplay, supportedFormats] at h

/-- The normalisation step maps `[0, 255]` into `[-1, 1]`. -/
theorem normalize_mem_Icc (v : ℚ) (h0 : 0 ≤ v) (h255 : v ≤ 255) :
    -1 ≤ (v - 127.5) / 127.5 ∧ (v - 127.5) / 127.5 ≤ 1 := by
  constructor
  · rw [le_div_iff₀ (by norm_num : (0 : ℚ) < 127.5)]
    linarith
  · rw [div_le_one (by norm_num : (0 : ℚ) < 127.5)]
    linarith

/-- If index `i` is the first position of `probs` holding the maximum, the
formatter picks class `i`. -/
theorem predictedClass_of_firstMaxIdx (probs : List ℚ) (i : Nat) (hi : i < probs.length)
    (hmax : probs.getD i 0 = jsMax probs)
    (hfirst : ∀ j, j < i → probs.getD j 0 ≠ jsMax probs) :
    (formatPrediction probs).predictedClass = cifarClasses.getD i "" := by
  rw [formatPrediction_predictedClass]
  congr 1
  refine findIdx_eq_of_first probs _ i hi ?_ ?_
  · exact decide_eq_true hmax
  · intro j hj
    exact decide_eq_false (hfirst j hj)

/-! ### The claims -/

/-- Claim C3: for every probability vector of length 10, `predictedClass` is
the class name at the index of the maximum value, ties broken by first
occurrence: a unique maximum at index `i` yields `cifarClasses[i]`, and a
maximum tied exactly between indices `i < j` yields `cifarClasses[i]`. -/
theorem claim_C3_argmax_first_occurrence (probs : List ℚ) (h10 : probs.length = 10) :
    (∀ i, i < 10 → (∀ j, j < 10 → j ≠ i → probs.getD j 0 < probs.getD i 0) →
      (formatPrediction probs).predictedClass = cifarClasses.getD i "") ∧
    (∀ i j, i < j → j < 10 →
      probs.getD i 0 = probs.getD j 0 →
      (∀ k, k < 10 → probs.getD k 0 ≤ probs.getD i 0) →
      (∀ k, k < 10 → probs.getD k 0 = probs.getD i 0 → k = i ∨ k = j) →
      (formatPrediction probs).predictedClass = cifarClasses.getD i "") := by
  have hne : probs ≠ [] := by
    intro h
    rw [h] at h10
    simp at h10
  constructor
  · intro i hi huniq
    have hilen : i < probs.length := by omega
    have hmem : probs.getD i 0 ∈ probs := by
      rw [List.getD_eq_getElem probs 0 hilen]
      exact List.getElem_mem hilen
    have hle1 : probs.getD i 0 ≤ jsMax probs := le_jsMax probs _ hmem
    have hmax : probs.getD i 0 = jsMax probs := by
      obtain ⟨m, hm, hmv⟩ := List.mem_iff_getElem.mp (jsMax_mem probs hne)
      by_cases hmi : m = i
      · subst hmi
        rw [List.getD_eq_getElem probs 0 hm]
        exact hmv
      · have hmlt : probs.getD m 0 < probs.getD i 0 := huniq m (by omega) hmi
        rw [List.getD_eq_getElem probs 0 hm, hmv] at hmlt
        exact absurd hle1 (not_le.mpr hmlt)
    refine predictedClass_of_firstMaxIdx probs i hilen hmax ?_
    intro j hj
    have hjlt : probs.getD j 0 < probs.getD i 0 := huniq j (by omega) (by omega)
    rw [← hmax]
    exact ne_of_lt hjlt
  · intro i j hij hj10 hieqj hmaxall hties
    have hi10 : i < 10 := lt_trans hij hj10
    have hilen : i < probs.length := by omega
    have hmem : probs.getD i 0 ∈ probs := by
      rw [List.getD_eq_getElem probs 0 hilen]
      exact List.getElem_mem hilen
    have hmax : probs.getD i 0 = jsMax probs := by
      refine le_antisymm (le_jsMax probs _ hmem) ?_
      obtain ⟨m, hm, hmv⟩ := List.mem_iff_getElem.mp (jsMax_mem probs hne)
      have hmle := hmaxall m (by omega)
      rw [List.getD_eq_getElem probs 0 hm, hmv] at hmle
      exact hmle
    refine predictedClass_of_firstMaxIdx probs i hilen hmax ?_
    intro k hk
    rw [← hmax]
    intro hkeq
    rcases hties k (by omega) hkeq with rfl | rfl
    · omega
    · omega

/-- Witness for C3 at concrete vectors: a unique maximum at index 1 gives
class `car`, and a maximum tied between indices 0 and 2 gives class
`plane`. -/
theorem claim_C3_witness :
    (formatPrediction [3, 7, 1, 0, 0, 0, 0, 0, 0, 2]).predictedClass = cifarClasses.getD 1 "" ∧
    (formatPrediction [5, 2, 5, 1, 1, 1, 1, 1, 1, 1]).predictedClass = cifarClasses.getD 0 "" :=
  ⟨(claim_C3_argmax_first_occurrence [3, 7, 1, 0, 0, 0, 0, 0, 0, 2] rfl).1 1
      (by omega) (by decide),
   (claim_C3_argmax_first_occurrence [5, 2, 5, 1, 1, 1, 1, 1, 1, 1] rfl).2 0 2
      (by omega) (by omega) (by decide) (by decide) (by decide)⟩

/-- Claim C4: `allPredictions` is sorted by probability descending, the sort is
stable (entries of equal probability keep their `baseResults` order, which is
the class-list order), its length is 10, and the success response body holds
`allPredictions.slice(0, 5)`. -/
theorem claim_C4_allPredictions_sorted_stable (probs : List ℚ) (h10 : probs.length = 10) :
    List.Pairwise (fun a b => b.probability ≤ a.probability)
      (formatPrediction probs).allPredictions ∧
    (formatPrediction probs).allPredictions.length = 10 ∧
    (∀ p : ℚ, (formatPrediction probs).allPredictions.filter
        (fun s => decide (s.probability = p)) =
      (baseResults probs).filter (fun s => decide (s.probability = p))) ∧
    (∀ vr : ImageMetadata,
      (classifyImage ⟨true, some (Except.ok probs), Except.ok vr, Except.ok ()⟩).responseTop =
        some ((formatPrediction probs).allPredictions.take 5)) := by
  have hlen : probs.length = 10 := h10
  refine ⟨?_, ?_, ?_, ?_⟩
  · rw [formatPrediction_allPredictions]
    exact sortDesc_pairwise _
  · rw [formatPrediction_allPredictions, sortDesc_length, baseResults_length]
  · intro p
    rw [formatPrediction_allPredictions]
    exact filter_sortDesc p _
  · intro vr
    rfl

/-- Witness for C4 at a concrete vector and request. -/
theorem claim_C4_witness :
    (formatPrediction [1, 2, 3, 4, 5, 6, 7, 8, 9, 10]).allPredictions.length = 10 ∧
    (classifyImage ⟨true, some (Except.ok [1, 2, 3, 4, 5, 6, 7, 8, 9, 10]),
        Except.ok ⟨500, 400, "jpeg", 245760, 3⟩, Except.ok ()⟩).responseTop =
      some ((formatPrediction [1, 2, 3, 4, 5, 6, 7, 8, 9, 10]).allPredictions.take 5) :=
  ⟨(claim_C4_allPredictions_sorted_stable [1, 2, 3, 4, 5, 6, 7, 8, 9, 10] rfl).2.1,
   (claim_C4_allPredictions_sorted_stable [1, 2, 3, 4, 5, 6, 7, 8, 9, 10] rfl).2.2.2
      ⟨500, 400, "jpeg", 245760, 3⟩⟩

/-- Claim C5: for every decoded image on which preprocessing succeeds, the
returned tensor has shape `[1, 32, 32, 3]`, every element lies in `[-1, 1]`,
and the code's per-channel map `(v - 127.5) / 127.5` equals the contract
formula `v / 127.5 - 1` in exact arithmetic. -/
theorem claim_C5_preprocess_shape_range (pixels : List ℚ) (hlen : pixels.length = 32 * 32 * 3)
    (hrange : ∀ v ∈ pixels, 0 ≤ v ∧ v ≤ 255) :
    (preprocessImage pixels).shape = [1, 32, 32, 3] ∧
    (preprocessImage pixels).data.length = 32 * 32 * 3 ∧
    (∀ x ∈ (preprocessImage pixels).data, -1 ≤ x ∧ x ≤ 1) ∧
    (preprocessImage pixels).data = pixels.map (fun v => v / 127.5 - 1) := by
  have hdata : (preprocessImage pixels).data = pixels.map (fun v => (v - 127.5) / 127.5) := by
    show (pixels.map fun v => v - 127.5).map (fun v => v / 127.5) = _
    rw [List.map_map]
    rfl
  refine ⟨rfl, ?_, ?_, ?_⟩
  · rw [hdata, List.length_map, hlen]
  · intro x hx
    rw [hdata] at hx
    obtain ⟨v, hv, rfl⟩ := List.mem_map.mp hx
    exact normalize_mem_Icc v (hrange v hv).1 (hrange v hv).2
  · rw [hdata]
    have hfun : (fun v : ℚ => (v - 127.5) / 127.5) = fun v : ℚ => v / 127.5 - 1 := by
      funext v
      rw [sub_div]
      norm_num
    rw [hfun]

/-- Witness for C5 at the all-black 32×32 image. -/
theorem claim_C5_witness :
    (preprocessImage (List.replicate (32 * 32 * 3) 0)).shape = [1, 32, 32, 3] :=
  (claim_C5_preprocess_shape_range (List.replicate (32 * 32 * 3) 0) (by rw [List.length_replicate])
    (by
      intro v hv
      rw [List.eq_of_mem_replicate hv]
      norm_num)).1

/-- Claim C6: a request with no image file gets status 400 and terminates
without invoking `validateImage`, `preprocessImage` or `predict`, whatever the
model state — in particular the no-file check precedes the model-readiness
check, so a missing file yields 400 even when the model is not loaded. -/
theorem claim_C6_no_file_400 (inp : ClassifyInput) (h : inp.hasFile = false) :
    classifyImage inp = ⟨400, false, false, false, false, false, none⟩ := by
  obtain ⟨hf, m, v, p⟩ := inp
  subst h
  rfl

/-- Witness for C6: a file-less request against an unloaded model. -/
theorem claim_C6_witness :
    classifyImage ⟨false, none, Except.ok ⟨500, 400, "jpeg", 245760, 3⟩, Except.ok ()⟩ =
      ⟨400, false, false, false, false, false, none⟩ :=
  claim_C6_no_file_400 _ rfl

/-- Claim C7: `predict` fails with the `Model not loaded` error exactly when
the model is not loaded and runs inference (formatting its output) when it is;
and a classify request with a file present and the model not loaded receives
status 503. -/
theorem claim_C7_model_not_loaded (probs : List ℚ) (inp : ClassifyInput)
    (hf : inp.hasFile = true) (hm : inp.model = none) :
    svcPredict none = Except.error "Model not loaded. Call loadModel() first." ∧
    svcPredict (some (Except.ok probs)) = Except.ok (formatPrediction probs) ∧
    (classifyImage inp).status = 503 := by
  refine ⟨rfl, rfl, ?_⟩
  obtain ⟨hfv, m, v, p⟩ := inp
  subst hf
  subst hm
  rfl

/-- Witness for C7 at a concrete request. -/
theorem claim_C7_witness :
    svcPredict none = Except.error "Model not loaded. Call loadModel() first." ∧
    svcPredict (some (Except.ok [1, 0, 0, 0, 0, 0, 0, 0, 0, 0])) =
      Except.ok (formatPrediction [1, 0, 0, 0, 0, 0, 0, 0, 0, 0]) ∧
    (classifyImage ⟨true, none, Except.ok ⟨2, 2, "png", 70, 3⟩, Except.ok ()⟩).status = 503 :=
  claim_C7_model_not_loaded [1, 0, 0, 0, 0, 0, 0, 0, 0, 0] _ rfl rfl

/-- Claim C8: `validateImage` fails exactly when the width or the height is
undetermined (absent, or 0 — falsy in JS) or the detected format does not
belong to the supported set; in the unsupported-format case the error message
names the rejected format; on success it returns the decoded metadata (the
model is a pure function, so success has no side effects). -/
theorem claim_C8_validateImage (bufLen : Nat) (m : SharpMetadata) :
    ((∃ e, validateImage bufLen m = Except.error e) ↔
      (natFalsy m.width = true ∨ natFalsy m.height = true ∨
        formatDisplay m.format ∉ supportedFormats)) ∧
    (∀ f, m.format = some f → f ∉ supportedFormats →
      natFalsy m.width = false → natFalsy m.height = false →
      validateImage bufLen m = Except.error
        ("Image validation failed: Error: Unsupported image format: " ++ f ++
          ". Supported: jpeg, jpg, png, webp, gif, bmp")) ∧
    (∀ w h f, m.width = some w → m.height = some h → m.format = some f →
      natFalsy m.width = false → natFalsy m.height = false → f ∈ supportedFormats →
      validateImage bufLen m = Except.ok ⟨w, h, f, bufLen, jsOrNat m.channels 3⟩) := by
  refine ⟨⟨?_, ?_⟩, ?_, ?_⟩
  · intro he
    by_contra hcon
    push_neg at hcon
    obtain ⟨hw, hh, hfmt⟩ := hcon
    simp only [ne_eq, Bool.not_eq_true] at hw hh
    have hsf := strFalsy_eq_false_of_mem m.format hfmt
    obtain ⟨e, he⟩ := he
    simp [validateImage, hw, hh, hsf, hfmt] at he
  · intro hcon
    rcases hcon with hw | hh | hfmt
    · refine ⟨"Image validation failed: Error: Unable to determine image dimensions", ?_⟩
      simp [validateImage, hw]
    · refine ⟨"Image validation failed: Error: Unable to determine image dimensions", ?_⟩
      simp [validateImage, hh]
    · by_cases h1 : (natFalsy m.width || natFalsy m.height) = true
      · refine ⟨"Image validation failed: Error: Unable to determine image dimensions", ?_⟩
        simp only [validateImage]
        rw [if_pos h1]
      · rw [Bool.or_eq_true, not_or] at h1
        obtain ⟨hw, hh⟩ := h1
        simp only [Bool.not_eq_true] at hw hh
        refine ⟨"Image validation failed: Error: Unsupported image format: " ++
          formatDisplay m.format ++ ". Supported: jpeg, jpg, png, webp, gif, bmp", ?_⟩
        simp [validateImage, hw, hh, hfmt]
  · intro f hfmt hnot hw hh
    simp [validateImage, hw, hh, hfmt, hnot, formatDisplay]
  · intro w h f hwv hhv hfv hw hh hmem
    rw [hwv] at hw
    rw [hhv] at hh
    have hsf : strFalsy (some f) = false :=
      strFalsy_eq_false_of_mem (some f) (by simpa [formatDisplay] using hmem)
    simp [validateImage, hwv, hhv, hfv, hw, hh, hsf, formatDisplay, hmem]

/-- Witness for C8: an image whose detected format `tiff` is rejected by name,
and a valid 500×400 JPEG accepted. -/
theorem claim_C8_witness :
    validateImage 10 ⟨some 500, some 400, some "tiff", some 3⟩ =
      Except.error ("Image validation failed: Error: Unsupported image format: " ++ "tiff" ++
        ". Supported: jpeg, jpg, png, webp, gif, bmp") ∧
    validateImage 245760 ⟨some 500, some 400, some "jpeg", none⟩ =
      Except.ok ⟨500, 400, "jpeg", 245760, jsOrNat none 3⟩ :=
  ⟨(claim_C8_validateImage 10 ⟨some 500, some 400, some "tiff", some 3⟩).2.1 "tiff" rfl
      (by decide) rfl rfl,
   (claim_C8_validateImage 245760 ⟨some 500, some 400, some "jpeg", none⟩).2.2 500 400 "jpeg"
      rfl rfl rfl rfl rfl (by decide)⟩

/-- Claim C9: `getClasses` returns a copy of the fixed 10-name class list —
the returned array holds exactly `cifarClasses` (the literal 10-name list), it
is a different object from the internal array, and mutating the returned array
changes neither the internal list nor the value any later `getClasses` call
returns. -/
theorem claim_C9_getClasses_defensive_copy (heap : List (List String)) (r : Nat)
    (hr : r < heap.length) (hv : heap.getD r [] = cifarClasses) :
    (getClasses heap r).1.getD (getClasses heap r).2 [] =
        ["plane", "car", "bird", "cat", "deer", "dog", "frog", "horse", "ship", "truck"] ∧
    (getClasses heap r).2 ≠ r ∧
    (∀ i v, (writeElem (getClasses heap r).1 (getClasses heap r).2 i v).getD r [] =
      cifarClasses) ∧
    (∀ i v,
      (getClasses (writeElem (getClasses heap r).1 (getClasses heap r).2 i v) r).1.getD
        (getClasses (writeElem (getClasses heap r).1 (getClasses heap r).2 i v) r).2 [] =
      cifarClasses) := by
  have hcopy : (getClasses heap r).1 = heap ++ [cifarClasses] := by
    show heap ++ [heap.getD r []] = heap ++ [cifarClasses]
    rw [hv]
  have href : (getClasses heap r).2 = heap.length := rfl
  have hread : ∀ i v,
      (writeElem (getClasses heap r).1 (getClasses heap r).2 i v).getD r [] = cifarClasses := by
    intro i v
    rw [hcopy, href, writeElem]
    rw [list_getD_set_ne _ _ _ _ _ (by omega : heap.length ≠ r)]
    rw [list_getD_append_left heap [cifarClasses] r [] hr]
    exact hv
  refine ⟨?_, ?_, hread, ?_⟩
  · rw [hcopy, href]
    exact list_getD_concat heap cifarClasses []
  · rw [href]
    omega
  · intro i v
    have h5 := hread i v
    show ((writeElem (getClasses heap r).1 (getClasses heap r).2 i v) ++
        [(writeElem (getClasses heap r).1 (getClasses heap r).2 i v).getD r []]).getD
        (writeElem (getClasses heap r).1 (getClasses heap r).2 i v).length [] = cifarClasses
    rw [h5]
    exact list_getD_concat _ cifarClasses []

/-- Witness for C9 on the one-object heap holding the class array. -/
theorem claim_C9_witness :
    (getClasses [cifarClasses] 0).1.getD (getClasses [cifarClasses] 0).2 [] =
      ["plane", "car", "bird", "cat", "deer", "dog", "frog", "horse", "ship", "truck"] :=
  (claim_C9_getClasses_defensive_copy [cifarClasses] 0 (by simp) rfl).1

/-- Claim C10: for every length-10 probability vector the prediction result is
internally consistent — `predictedClass` is the class of the head of the full
sorted `allPredictions` list, the numeric `confidence` is that head's
probability rounded to 4 decimal places, and the `allPredictions` entries carry
the unrounded probabilities (they are a permutation of the input vector). -/
theorem claim_C10_result_consistent (probs : List ℚ) (h10 : probs.length = 10) :
    ∃ hd tl, (formatPrediction probs).allPredictions = hd :: tl ∧
      (formatPrediction probs).predictedClass = hd.className ∧
      (formatPrediction probs).confidence = round4 hd.probability ∧
      ((formatPrediction probs).allPredictions.map fun s => s.probability).Perm probs := by
  have hbase_ne : baseResults probs ≠ [] := by
    intro h
    have hl := baseResults_length probs
    rw [h] at hl
    simp at hl
  obtain ⟨i, hi, hgd, hprob, hfind⟩ := firstMaxElem_spec (baseResults probs) hbase_ne
  rw [baseResults_map_prob probs h10] at hprob hfind
  have hi10 : i < 10 := by
    rw [baseResults_length] at hi
    exact hi
  have hhead := head_sortDesc (baseResults probs) hbase_ne
  obtain ⟨hd, tl, heq⟩ : ∃ hd tl, sortDesc (baseResults probs) = hd :: tl := by
    cases hcase : sortDesc (baseResults probs) with
    | nil =>
      rw [hcase] at hhead
      simp at hhead
    | cons a b => exact ⟨a, b, rfl⟩
  have hhd : hd = firstMaxElem (baseResults probs) := by
    rw [heq] at hhead
    simpa using hhead
  have hgd2 : firstMaxElem (baseResults probs) =
      ⟨cifarClasses.getD i "", probs.getD i 0, round2 (probs.getD i 0 * 100)⟩ := by
    rw [hgd, baseResults_getD probs i hi10]
  refine ⟨hd, tl, ?_, ?_, ?_, ?_⟩
  · rw [formatPrediction_allPredictions, heq]
  · rw [formatPrediction_predictedClass, hhd, hgd2, hfind]
  · rw [formatPrediction_confidence, hhd, hgd2, hfind]
  · rw [formatPrediction_allPredictions]
    have hperm := (sortDesc_perm (baseResults probs)).map (fun s => s.probability)
    rw [baseResults_map_prob probs h10] at hperm
    exact hperm

/-- Witness for C10 at a concrete tied vector. -/
theorem claim_C10_witness :
    ∃ hd tl, (formatPrediction [1, 5, 5, 2, 0, 0, 0, 0, 0, 3]).allPredictions = hd :: tl ∧
      (formatPrediction [1, 5, 5, 2, 0, 0, 0, 0, 0, 3]).predictedClass = hd.className ∧
      (formatPrediction [1, 5, 5, 2, 0, 0, 0, 0, 0, 3]).confidence = round4 hd.probability ∧
      ((formatPrediction [1, 5, 5, 2, 0, 0, 0, 0, 0, 3]).allPredictions.map
        fun s => s.probability).Perm [1, 5, 5, 2, 0, 0, 0, 0, 0, 3] :=
  claim_C10_result_consistent [1, 5, 5, 2, 0, 0, 0, 0, 0, 3] rfl

/-- Claim C1 is violated by the code: on a request with a file, a loaded model,
a valid image and a successful preprocess, a throwing `predict` reaches the
catch block, which sends the error response and completes the request without
ever invoking `dispose()` on the preprocessed tensor (`tensorAllocated = true`,
`tensorDisposed = false`). -/
theorem claim_C1_tensor_leak_on_predict_failure :
    classifyImage ⟨true, some (Except.error "inference backend error"),
        Except.ok ⟨500, 400, "jpeg", 245760, 3⟩, Except.ok ()⟩ =
      ⟨500, true, true, true, true, false, none⟩ := by
  rfl

/-- Claim C2 is violated by the code: running `preprocessImage` from an empty
tensor heap, a successful call returns the batched tensor (id 4) but leaves the
subtraction-result tensor (id 2, allocated by `tf.sub` inside
`tf.div(tf.sub(resizedTensor, 127.5), 127.5)`) live — so more than the final
tensor survives even on success — and a failure at the bilinear-resize step
leaves the decoded image tensor (id 0) live, since the catch block disposes
nothing. -/
theorem claim_C2_preprocess_leaks :
    preprocessAlloc none ⟨0, []⟩ = (Except.ok 4, ⟨5, [2, 4]⟩) ∧
    (preprocessAlloc (some PreStep.resizeBil) ⟨0, []⟩).2.live = [0] :=
  ⟨rfl, rfl⟩
